import Mathlib

/-!
Verification of the rust_rpc_relay request-routing core.

This file gives a shallow embedding, in Lean, of the relay program:
the JSON value model (for serde_json values), the circuit breaker
(src/circuit_breaker.rs), the token bucket (src/token_bucket.rs), the
provider state and registry with hot-reload reconciliation
(src/state.rs), the health prober step (src/health.rs), and the relay
request handler with candidate selection (src/relay.rs).  External
effects (the HTTP client, the wall clock, the token-bucket admission
results and the shared cache) are passed in explicitly as oracle
inputs, so every definition is executable.  Theorems about the
embedding settle the specified properties of the program.
-/

/-- Model of a serde_json value.  Numbers are modelled as integers
(the program only manipulates integral ids and block numbers); object
fields are an association list. -/
inductive Json where
  | null : Json
  | bool (b : Bool) : Json
  | num (n : Int) : Json
  | str (s : String) : Json
  | arr (xs : List Json) : Json
  | obj (fields : List (String × Json)) : Json
deriving Repr

/-- First field with the given key, as in serde_json map lookup
(maps have unique keys, so first match is the match). -/
def findField : List (String × Json) → String → Option Json
  | [], _ => none
  | (k, v) :: rest, key => if k = key then some v else findField rest key

/-- Model of serde_json `Value::get(key)`: `none` on non-objects. -/
def Json.getField : Json → String → Option Json
  | .obj fs, key => findField fs key
  | _, _ => none

/-- Replace the first binding of `key`, or append one: model of
serde_json `Map::insert` as far as later lookups can observe. -/
def setFieldList : List (String × Json) → String → Json → List (String × Json)
  | [], key, v => [(key, v)]
  | (k, w) :: rest, key, v =>
      if k = key then (k, v) :: rest else (k, w) :: setFieldList rest key v

/-- Model of `obj.insert(key, v)` done through `as_object_mut`:
non-objects are left unchanged. -/
def Json.setField : Json → String → Json → Json
  | .obj fs, key, v => .obj (setFieldList fs key v)
  | j, _, _ => j

def escapeChar (c : Char) : String :=
  if c = '"' then "\\\"" else if c = '\\' then "\\\\" else String.singleton c

def escapeStr (s : String) : String :=
  String.join (s.toList.map escapeChar)

mutual

/-- Model of the compact textual form `serde_json::Value::to_string`
(also the `Display` instance) used for cache keys and error messages. -/
def Json.serialize : Json → String
  | .null => "null"
  | .bool true => "true"
  | .bool false => "false"
  | .num n => toString n
  | .str s => "\"" ++ escapeStr s ++ "\""
  | .arr xs => "[" ++ serializeArr xs ++ "]"
  | .obj fs => "\x7b" ++ serializeObj fs ++ "\x7d"

def serializeArr : List Json → String
  | [] => ""
  | [x] => Json.serialize x
  | x :: y :: rest => Json.serialize x ++ "," ++ serializeArr (y :: rest)

def serializeObj : List (String × Json) → String
  | [] => ""
  | [(k, v)] => "\"" ++ escapeStr k ++ "\":" ++ Json.serialize v
  | (k, v) :: e :: rest =>
      "\"" ++ escapeStr k ++ "\":" ++ Json.serialize v ++ "," ++ serializeObj (e :: rest)

end

/-- The `eth_getTransactionCount` params normalization of
src/relay.rs lines 106-114: for a non-empty `params` array, truncate
to length 2 and force the second element to the string "pending",
appending it when the truncated array has a single element. -/
def normalizeTxCountParams : Json → Json
  | .arr l =>
      if l.isEmpty then .arr l
      else
        let t := l.take 2
        if t.length = 1 then .arr (t ++ [.str "pending"])
        else .arr (t.set 1 (.str "pending"))
  | v => v

/-! ## Circuit breaker (src/circuit_breaker.rs) -/

def u32max : Nat := 2 ^ 32 - 1

def u64max : Nat := 2 ^ 64 - 1

structure BreakerConfig where
  ban_error_threshold : Nat
  ban_seconds : Nat
deriving Repr, DecidableEq

structure CircuitBreaker where
  fail_streak : Nat
  banned_until_epoch : Nat
deriving Repr, DecidableEq

/-- `CircuitBreaker::default()`. -/
def CircuitBreaker.default : CircuitBreaker := { fail_streak := 0, banned_until_epoch := 0 }

/-- `is_banned`: the wall clock `now` (epoch seconds) is passed in
explicitly. -/
def CircuitBreaker.is_banned (cb : CircuitBreaker) (now : Nat) : Bool :=
  now < cb.banned_until_epoch

/-- `on_success`. -/
def CircuitBreaker.on_success (cb : CircuitBreaker) : CircuitBreaker :=
  { cb with fail_streak := 0 }

/-- `on_failure`: u32 `saturating_add` on the streak, u64
`saturating_add` on the ban deadline. -/
def CircuitBreaker.on_failure (cb : CircuitBreaker) (cfg : BreakerConfig) (now : Nat) :
    CircuitBreaker :=
  let fs := min (cb.fail_streak + 1) u32max
  if cfg.ban_error_threshold ≤ fs then
    { fail_streak := 0, banned_until_epoch := min (now + cfg.ban_seconds) u64max }
  else
    { cb with fail_streak := fs }

/-! ## Token bucket (src/token_bucket.rs)

The Rust implementation stores `f64` token counts and reads the
monotonic clock (`Instant::now`) inside `new`, `refill` and
`try_take`.  The embedding uses exact rationals for the token
arithmetic and passes the clock reading in explicitly; the infinite
capacity used for `max_tps = 0` is represented by a flag. -/

structure TokenBucket where
  infiniteCap : Bool
  capacity : ℚ
  tokens : ℚ
  refill_per_sec : ℚ
  last : ℚ
deriving Repr, DecidableEq

/-- `TokenBucket::new(max_tps)`; `now` is the creation instant. -/
def TokenBucket.new (max_tps : Nat) (now : ℚ) : TokenBucket :=
  if max_tps = 0 then
    { infiniteCap := true, capacity := 0, tokens := 0, refill_per_sec := 0, last := now }
  else
    { infiniteCap := false, capacity := max_tps, tokens := max_tps,
      refill_per_sec := max_tps, last := now }

/-- `refill`, with the clock reading `now` passed in. -/
def TokenBucket.refill (b : TokenBucket) (now : ℚ) : TokenBucket :=
  if b.infiniteCap then b
  else
    let dt := now - b.last
    if 0 < dt then
      { b with tokens := min (b.tokens + dt * b.refill_per_sec) b.capacity, last := now }
    else b

/-- `try_take(n)`: refill from elapsed time, then debit if enough
tokens are available. -/
def TokenBucket.try_take (b : TokenBucket) (now : ℚ) (n : ℚ) : Bool × TokenBucket :=
  if b.infiniteCap then (true, b)
  else
    let b := b.refill now
    if n ≤ b.tokens then (true, { b with tokens := b.tokens - n })
    else (false, b)

/-- One bucket operation of the source API, with its clock reading. -/
inductive BucketOp where
  | tryTake (now n : ℚ)
  | refillOp (now : ℚ)
deriving Repr, DecidableEq

def BucketOp.nonnegB : BucketOp → Bool
  | .tryTake _ n => decide (0 ≤ n)
  | .refillOp _ => true

def applyOp (b : TokenBucket) : BucketOp → TokenBucket
  | .tryTake now n => (b.try_take now n).2
  | .refillOp now => b.refill now

def applyOps (b : TokenBucket) (ops : List BucketOp) : TokenBucket :=
  ops.foldl applyOp b

/-- The inductive invariant of a finite-capacity bucket. -/
def BucketInv (k : Nat) (b : TokenBucket) : Prop :=
  b.infiniteCap = false ∧ b.capacity = (k : ℚ) ∧ 0 ≤ b.refill_per_sec ∧
    0 ≤ b.tokens ∧ b.tokens ≤ b.capacity

/-! ## Provider state and registry (src/state.rs) -/

/-- A configuration endpoint record (src/config.rs `Endpoint`). -/
structure Endpoint where
  url : String
  max_tps : Option Nat
  weight : Nat
deriving Repr, DecidableEq

/-- Per-provider live state (src/state.rs `ProviderState`); the
atomics are plain fields since the embedding threads state
explicitly. -/
structure ProviderState where
  url : String
  weight : Nat
  max_tps : Nat
  healthy : Bool
  latest_block : Nat
  behind : Nat
  latency_ms : Nat
  errors : Nat
  call_count : Nat
  bucket : TokenBucket
  breaker : CircuitBreaker
deriving Repr, DecidableEq

/-- `ProviderState::from_endpoint`; `now` is the bucket creation
instant. -/
def ProviderState.from_endpoint (ep : Endpoint) (now : ℚ) : ProviderState :=
  { url := ep.url
    weight := max ep.weight 1
    max_tps := ep.max_tps.getD 0
    healthy := true
    latest_block := 0
    behind := 0
    latency_ms := u64max
    errors := 0
    call_count := 0
    bucket := TokenBucket.new (ep.max_tps.getD 0) now
    breaker := CircuitBreaker.default }

structure ProviderRegistry where
  primaries : List ProviderState
  secondaries : List ProviderState

/-- `ProviderRegistry::all`. -/
def ProviderRegistry.all (reg : ProviderRegistry) : List ProviderState :=
  reg.primaries ++ reg.secondaries

/-! ## Candidate selection (src/relay.rs helpers) -/

/-- The closure `now_healthy` of `healthy_candidates`:
`p.is_healthy() && !p.breaker_is_banned()`. -/
def now_healthy (now : Nat) (p : ProviderState) : Bool :=
  p.healthy && !(p.breaker.is_banned now)

/-- `apply_weights`: each provider is repeated `get_weight()` times,
where `get_weight` coerces a stored weight of 0 to 1. -/
def apply_weights : List ProviderState → List ProviderState
  | [] => []
  | p :: rest => List.replicate (max p.weight 1) p ++ apply_weights rest

/-- `healthy_candidates`: healthy-and-unbanned primaries when any
exist, otherwise healthy-and-unbanned secondaries, weight-expanded. -/
def healthy_candidates (now : Nat) (reg : ProviderRegistry) : List ProviderState :=
  let prim := reg.primaries.filter (now_healthy now)
  if !prim.isEmpty then apply_weights prim
  else apply_weights (reg.secondaries.filter (now_healthy now))

/-- `list.iter().map(get_latency).min()`. -/
def minLatency : List ProviderState → Option Nat
  | [] => none
  | p :: rest =>
      match minLatency rest with
      | none => some p.latency_ms
      | some m => some (min p.latency_ms m)

/-- `filter_latency`: keep candidates under the threshold; if none
are under it, fall back to the subset tied for minimum latency; no
threshold means no gate. -/
def filter_latency (list : List ProviderState) (threshold_ms : Option Nat) :
    List ProviderState :=
  match threshold_ms with
  | some th =>
      let under := list.filter (fun p => p.latency_ms < th)
      if !under.isEmpty then under
      else
        match minLatency list with
        | some m => list.filter (fun p => p.latency_ms = m)
        | none => list
  | none => list

/-- Stable insertion into a list sorted by latency (equal keys keep
their relative order, as with the stable `sort_by_key`). -/
def insertByLatency (p : ProviderState) : List ProviderState → List ProviderState
  | [] => [p]
  | q :: rest =>
      if q.latency_ms ≤ p.latency_ms then q :: insertByLatency p rest
      else p :: q :: rest

def sortByLatency : List ProviderState → List ProviderState
  | [] => []
  | p :: rest => insertByLatency p (sortByLatency rest)

/-- The deduplication loop of `unique_by_low_latency`: keep the first
occurrence of each url. -/
def dedupByUrl : List ProviderState → List String → List ProviderState
  | [], _ => []
  | p :: rest, seen =>
      if seen.contains p.url then dedupByUrl rest seen
      else p :: dedupByUrl rest (p.url :: seen)

/-- `unique_by_low_latency`: stable sort ascending by latency, then
dedup by url keeping the first (lowest-latency) entry. -/
def unique_by_low_latency (list : List ProviderState) : List ProviderState :=
  dedupByUrl (sortByLatency list) []

/-! ## The relay handler (src/relay.rs `relay`)

The HTTP client, the token buckets shared behind mutexes, the TTL
cache and the global round-robin counter are external to one call of
`relay`; they enter the embedding as an environment: `cache` maps a
(method, serialized params) key to a cached value; `adm` gives the
result of the n-th `try_consume_token` call made by this request;
`upstream` gives the outcome of the n-th upstream dispatch observed
by this request (for the broadcast path, in completion order);
`rr_main` is the value fetched from the global counter. -/

inductive UpstreamResult where
  | timeout
  | httpErr
  | badJson (e : String)
  | ok (v : Json)

structure RelayEnv where
  cache : String → String → Option Json
  adm : Nat → Bool
  upstream : Nat → UpstreamResult
  rr_main : Nat

/-- The relay configuration snapshot read at the start of `relay`. -/
structure RelayConfig where
  cache_ttl : List (String × Nat)
  latency_threshold_ms : Option Nat
  max_provider_tries : Nat
  upstream_timeout_ms : Nat
  broadcast_methods : List String
  broadcast_redundancy : Nat
  ban_error_threshold : Nat
  ban_seconds : Nat

/-- An HTTP status code paired with the JSON body returned. -/
structure Response where
  status : Nat
  body : Json

/-- The synthesized JSON-RPC error object
`json!({"jsonrpc":"2.0","id":…,"error":{"code":…,"message":…}})`. -/
def errorResponse (id : Json) (code : Int) (msg : String) : Json :=
  .obj [("jsonrpc", .str "2.0"), ("id", id),
        ("error", .obj [("code", .num code), ("message", .str msg)])]

/-- `body.get("method").and_then(as_str).unwrap_or_default()`. -/
def requestMethod (body : Json) : String :=
  match body.getField "method" with
  | some (.str s) => s
  | _ => ""

/-- `body.get("id").cloned().unwrap_or(Value::Number(0))`. -/
def requestId (body : Json) : Json :=
  (body.getField "id").getD (.num 0)

/-- `params` after the `eth_getTransactionCount` normalization. -/
def requestParams (body : Json) : Json :=
  let p := (body.getField "params").getD .null
  if requestMethod body = "eth_getTransactionCount" then normalizeTxCountParams p else p

/-- The upstream payload built at src/relay.rs lines 162-167. -/
def relayPayload (body : Json) : Json :=
  .obj [("jsonrpc", .str "2.0"), ("id", requestId body),
        ("method", .str (requestMethod body)), ("params", requestParams body)]

/-- The admission walk of the broadcast path: consult the token
bucket of each provider in order until `redundancy` are admitted. -/
def chooseBroadcast (adm : Nat → Bool) (redundancy : Nat) :
    List ProviderState → Nat → Nat → List ProviderState × Nat
  | [], _, idx => ([], idx)
  | p :: rest, cnt, idx =>
      if redundancy ≤ cnt then ([], idx)
      else if adm idx then
        let r := chooseBroadcast adm redundancy rest (cnt + 1) (idx + 1)
        (p :: r.1, r.2)
      else chooseBroadcast adm redundancy rest cnt (idx + 1)

/-- The broadcast completion loop: return the first body without an
`error` member; otherwise remember the first error message and, after
all attempts, synthesize the 502. -/
def broadcastLoop (idResp : Json) (up : Nat → UpstreamResult) :
    Nat → Nat → Option String → Response
  | 0, _, firstErr =>
      ⟨502, errorResponse idResp (-32603)
        ("All broadcast attempts failed: " ++ firstErr.getD "unknown")⟩
  | n + 1, idx, firstErr =>
      match up idx with
      | .ok v =>
          if (v.getField "error").isNone then ⟨200, v⟩
          else broadcastLoop idResp up n (idx + 1)
            (some (firstErr.getD (Json.serialize ((v.getField "error").getD (.str "error")))))
      | .badJson e =>
          broadcastLoop idResp up n (idx + 1) (some (firstErr.getD ("bad json: " ++ e)))
      | .httpErr =>
          broadcastLoop idResp up n (idx + 1) (some (firstErr.getD "upstream error"))
      | .timeout =>
          broadcastLoop idResp up n (idx + 1) (some (firstErr.getD "upstream timeout"))

/-- `candidates.into_iter().find(|p| p.try_consume_token())`, also
returning the next admission index. -/
def findAdmit (adm : Nat → Bool) : List ProviderState → Nat → Option (ProviderState × Nat)
  | [], _ => none
  | p :: rest, idx =>
      if adm idx then some (p, idx + 1) else findAdmit adm rest (idx + 1)

/-- `candidates.rotate_left(n)` for `n ≤ length`. -/
def rotateL (l : List ProviderState) (n : Nat) : List ProviderState :=
  l.drop n ++ l.take n

/-- The failover loop of the non-broadcast path, recursing on the
remaining tries; `aIdx`, `uIdx` index the admission and upstream
oracles, `rr` is the rotation index carried across iterations. -/
def failoverLoop (cands : List ProviderState) (idResp : Json) (adm : Nat → Bool)
    (up : Nat → UpstreamResult) : Nat → Nat → Nat → Nat → String → Response
  | 0, _, _, _, lastErr =>
      ⟨502, errorResponse idResp (-32603)
        ("Upstream provider error after failover: " ++ lastErr)⟩
  | n + 1, aIdx, uIdx, rr, _lastErr =>
      let rrm := if cands.isEmpty then rr else rr % cands.length
      let rotated := rotateL cands rrm
      match findAdmit adm rotated aIdx with
      | none => ⟨429, errorResponse idResp (-32005) "Rate limited; try later"⟩
      | some (_prov, aIdx2) =>
          match up uIdx with
          | .ok v =>
              if (v.getField "error").isNone then ⟨200, v⟩
              else failoverLoop cands idResp adm up n aIdx2 (uIdx + 1) (rrm + 1)
                (Json.serialize ((v.getField "error").getD (.str "error")))
          | .badJson e =>
              failoverLoop cands idResp adm up n aIdx2 (uIdx + 1) (rrm + 1) ("bad json: " ++ e)
          | .httpErr =>
              failoverLoop cands idResp adm up n aIdx2 (uIdx + 1) (rrm + 1) "upstream error"
          | .timeout =>
              failoverLoop cands idResp adm up n aIdx2 (uIdx + 1) (rrm + 1) "upstream timeout"

/-- The per-method TTL read from the configuration map; absent
methods mean TTL 0 (non-cacheable). -/
def cacheTtl (cfg : RelayConfig) (body : Json) : Nat :=
  (List.lookup (requestMethod body) cfg.cache_ttl).getD 0

/-- The TTL cache lookup of src/relay.rs lines 116-131: performed
only when the method has a positive TTL, keyed by the method and the
serialized (normalized) params. -/
def cacheLookup (cfg : RelayConfig) (env : RelayEnv) (body : Json) : Option Json :=
  if 0 < cacheTtl cfg body then
    env.cache (requestMethod body) (Json.serialize (requestParams body))
  else none

/-- The candidate list of one request: health-and-ban filtering with
tier preference, weight expansion, then the latency gate. -/
def relayCandidates (cfg : RelayConfig) (reg : ProviderRegistry) (now : Nat) :
    List ProviderState :=
  filter_latency (healthy_candidates now reg) cfg.latency_threshold_ms

/-- The relay after a cache miss: candidate selection, then the
broadcast or the failover path. -/
def relayNoCache (cfg : RelayConfig) (reg : ProviderRegistry) (now : Nat) (env : RelayEnv)
    (body : Json) : Response :=
  let cands := relayCandidates cfg reg now
  if cands.isEmpty then
    ⟨500, errorResponse (requestId body) (-32000) "No healthy RPCs available"⟩
  else if cfg.broadcast_methods.contains (requestMethod body) then
    let uniq := unique_by_low_latency cands
    let chosen := (chooseBroadcast env.adm (max cfg.broadcast_redundancy 1) uniq 0 0).1
    if chosen.isEmpty then
      ⟨429, errorResponse (requestId body) (-32005) "Rate limited; try later"⟩
    else broadcastLoop (requestId body) env.upstream chosen.length 0 none
  else
    failoverLoop cands (requestId body) env.adm env.upstream
      (max cfg.max_provider_tries 1) 0 0 env.rr_main ""

/-- The `relay` handler (src/relay.rs lines 94-318), as the response
returned to the client.  Counter updates, breaker updates and cache
insertions are effects on the environment and are not part of the
returned value. -/
def relay (cfg : RelayConfig) (reg : ProviderRegistry) (now : Nat) (env : RelayEnv)
    (body : Json) : Response :=
  match cacheLookup cfg env body with
  | some c => ⟨200, c.setField "id" (requestId body)⟩
  | none => relayNoCache cfg reg now env body

/-! ## Response id tracking -/

/-! Concrete objects used by the witnesses. -/

def cfgW : RelayConfig :=
  { cache_ttl := [], latency_threshold_ms := none, max_provider_tries := 3,
    upstream_timeout_ms := 30000, broadcast_methods := ["eth_sendRawTransaction"],
    broadcast_redundancy := 2, ban_error_threshold := 3, ban_seconds := 30 }

def provA : ProviderState :=
  { url := "http://a", weight := 1, max_tps := 0, healthy := true, latest_block := 100,
    behind := 0, latency_ms := 5, errors := 0, call_count := 0,
    bucket := TokenBucket.new 0 0, breaker := CircuitBreaker.default }

def regW : ProviderRegistry := ⟨[provA], []⟩

def regEmpty : ProviderRegistry := ⟨[], []⟩

def okBodyW : Json :=
  .obj [("jsonrpc", .str "2.0"), ("id", .num 7), ("result", .str "0x1")]

def bodyW : Json :=
  .obj [("method", .str "eth_call"), ("id", .num 7), ("params", .arr [])]

def bodyNoId : Json :=
  .obj [("method", .str "eth_call"), ("params", .arr [])]

def envOkW : RelayEnv :=
  { cache := fun _ _ => none, adm := fun _ => true,
    upstream := fun _ => .ok okBodyW, rr_main := 0 }

def envFailW : RelayEnv :=
  { cache := fun _ _ => none, adm := fun _ => false,
    upstream := fun _ => .timeout, rr_main := 0 }

/-! ## Candidate selection facts (C2) -/

/-! ## Registry reconciliation (src/state.rs `reconcile_registry`)

The `HashMap<String, Arc<ProviderState>>` built from `reg.all()` is
modelled as a function from url to optional provider: collecting the
map inserts left to right (later duplicates overwrite), lookups and
removals are by key.  `now` is the creation instant used for any
fresh token bucket. -/

structure RpcEndpoints where
  primary : List Endpoint
  secondary : List Endpoint

def insertProv (m : String → Option ProviderState) (p : ProviderState) :
    String → Option ProviderState :=
  fun u => if u = p.url then some p else m u

def buildMap : List ProviderState → (String → Option ProviderState) →
    (String → Option ProviderState)
  | [], m => m
  | p :: rest, m => buildMap rest (insertProv m p)

/-- `reg.all().into_iter().map(|p| (p.url.clone(), p)).collect()`. -/
def registryMap (reg : ProviderRegistry) : String → Option ProviderState :=
  buildMap reg.all (fun _ => none)

/-- The reuse branch of the reconcile loop: store the new weight,
and when `max_tps` changed store it and replace the bucket with a
fresh full one. -/
def reuseUpdate (ep : Endpoint) (p : ProviderState) (now : ℚ) : ProviderState :=
  let p1 : ProviderState := { p with weight := max ep.weight 1 }
  let new_mtps := ep.max_tps.getD 0
  if new_mtps ≠ p1.max_tps then
    { p1 with max_tps := new_mtps, bucket := TokenBucket.new new_mtps now }
  else p1

/-- One iteration of the reconcile loop: `existing.remove(&ep.url)`
then reuse or instantiate fresh. -/
def reconcileOne (ep : Endpoint) (m : String → Option ProviderState) (now : ℚ) :
    ProviderState × (String → Option ProviderState) :=
  match m ep.url with
  | some p => (reuseUpdate ep p now, fun u => if u = ep.url then none else m u)
  | none => (ProviderState.from_endpoint ep now, m)

def reconcileList (eps : List Endpoint) (m : String → Option ProviderState) (now : ℚ) :
    List ProviderState × (String → Option ProviderState) :=
  match eps with
  | [] => ([], m)
  | ep :: rest =>
      let r1 := reconcileOne ep m now
      let r2 := reconcileList rest r1.2 now
      (r1.1 :: r2.1, r2.2)

/-- `reconcile_registry`: process the new primary list, then the new
secondary list against the remaining map, and install both tiers. -/
def reconcile_registry (reg : ProviderRegistry) (new_eps : RpcEndpoints) (now : ℚ) :
    ProviderRegistry :=
  let m := registryMap reg
  let r1 := reconcileList new_eps.primary m now
  let r2 := reconcileList new_eps.secondary r1.2 now
  ⟨r1.1, r2.1⟩

/-- Concrete objects for the C5 witness: one existing provider with
live counters, reloaded with the same URL (same `max_tps`, new
weight) plus one new URL. -/
def provOld : ProviderState :=
  { url := "http://a", weight := 2, max_tps := 5, healthy := true, latest_block := 50,
    behind := 1, latency_ms := 9, errors := 3, call_count := 42,
    bucket := TokenBucket.new 5 0, breaker := { fail_streak := 1, banned_until_epoch := 99 } }

def regOld : ProviderRegistry := ⟨[provOld], []⟩

def epA : Endpoint := { url := "http://a", max_tps := some 5, weight := 3 }

def epD : Endpoint := { url := "http://d", max_tps := none, weight := 1 }

def epsNew : RpcEndpoints := ⟨[epA, epD], []⟩

/-! ## Health prober (src/health.rs)

One sweep is embedded as a pure step: the network outcome of each
probe is an input (`ProbeResult`), and the sweep maps the provider
list through the probe handler, then applies the lag computation over
the providers that succeeded. -/

/-- `h.trim_start_matches("0x")`: every leading repetition of the
prefix `0x` is removed. -/
def trim0x : List Char → List Char
  | '0' :: 'x' :: rest => trim0x rest
  | l => l

def hexDigit (c : Char) : Option Nat :=
  if '0' ≤ c ∧ c ≤ '9' then some (c.toNat - '0'.toNat)
  else if 'a' ≤ c ∧ c ≤ 'f' then some (c.toNat - 'a'.toNat + 10)
  else if 'A' ≤ c ∧ c ≤ 'F' then some (c.toNat - 'A'.toNat + 10)
  else none

def parseHexDigits : List Char → Nat → Option Nat
  | [], acc => some acc
  | c :: rest, acc =>
      match hexDigit c with
      | some d => parseHexDigits rest (acc * 16 + d)
      | none => none

/-- Model of `u64::from_str_radix(s, 16)`: an optional leading `+`,
then at least one hex digit, rejecting values above u64::MAX (the
accumulated value is monotone, so a final bound check is equivalent
to failing at the overflowing step). -/
def fromStrRadix16u64 (l : List Char) : Option Nat :=
  let core :=
    match l with
    | [] => none
    | '+' :: rest => if rest.isEmpty then none else parseHexDigits rest 0
    | _ => parseHexDigits l 0
  match core with
  | some n => if n ≤ u64max then some n else none
  | none => none

/-- `hex_to_u64` of src/health.rs lines 10-13. -/
def hex_to_u64 (h : String) : Option Nat :=
  fromStrRadix16u64 (trim0x h.toList)

/-- The outcome of one probe: transport failure, undecodable body, or
a decoded JSON body together with the measured latency. -/
inductive ProbeResult where
  | transportErr
  | decodeErr
  | body (v : Json) (latency_ms : Nat)

/-- `v.get("result").and_then(|r| r.as_str())` fed to `hex_to_u64`. -/
def probeResultBlock (v : Json) : Option Nat :=
  match v.getField "result" with
  | some (.str s) => hex_to_u64 s
  | _ => none

/-- The probe handler of src/health.rs lines 44-64: on a decoded body
whose `result` string parses, record the block and the latency and
mark healthy, returning the block for the sweep; on every failure
mark unhealthy and leave all other fields untouched. -/
def probe (p : ProviderState) (r : ProbeResult) : ProviderState × Option Nat :=
  match r with
  | .transportErr => ({ p with healthy := false }, none)
  | .decodeErr => ({ p with healthy := false }, none)
  | .body v lat =>
      match probeResultBlock v with
      | some bn =>
          ({ p with latest_block := bn, latency_ms := lat, healthy := true }, some bn)
      | none => ({ p with healthy := false }, none)

/-- `max_block`: the maximum reported block over the providers that
succeeded this sweep, starting from 0. -/
def sweepGlobalMax (ps : List ProviderState) (results : List ProbeResult) : Nat :=
  ((ps.zip results).map (fun pr => probe pr.1 pr.2)).foldl
    (fun mb pr =>
      match pr.2 with
      | some bn => if mb < bn then bn else mb
      | none => mb) 0

/-- The per-provider lag step of src/health.rs lines 76-83, applied
only to providers that succeeded (`saturating_sub` is Nat
subtraction). -/
def lagAdjust (maxb max_behind : Nat) (pr : ProviderState × Option Nat) : ProviderState :=
  match pr.2 with
  | some bn =>
      let behind := maxb - bn
      let p1 : ProviderState := { pr.1 with behind := behind }
      if max_behind < behind then { p1 with healthy := false } else p1
  | none => pr.1

/-- One completed health sweep over aligned provider and outcome
lists. -/
def sweep (ps : List ProviderState) (results : List ProbeResult) (max_behind : Nat) :
    List ProviderState :=
  ((ps.zip results).map (fun pr => probe pr.1 pr.2)).map
    (lagAdjust (sweepGlobalMax ps results) max_behind)

/-- Providers and outcomes for the C6 and C8 examples: provider A
(last sweep said block 100, behind 0) fails this sweep, provider B
reports block 0x6e = 110. -/
def provB : ProviderState :=
  { url := "http://b", weight := 1, max_tps := 0, healthy := true, latest_block := 0,
    behind := 0, latency_ms := 8, errors := 0, call_count := 0,
    bucket := TokenBucket.new 0 0, breaker := CircuitBreaker.default }

def psC6 : List ProviderState := [provA, provB]

def rsC6 : List ProbeResult := [.transportErr, .body (.obj [("result", .str "0x6e")]) 5]

/-- C9: the `eth_getTransactionCount` params normalization is
idempotent: applying it twice to any params value yields the same
result as applying it once. -/
theorem normalizeTxCountParams_idempotent (v : Json) :
    normalizeTxCountParams (normalizeTxCountParams v) = normalizeTxCountParams v := by
  cases v with
  | arr l =>
      cases l with
      | nil => rfl
      | cons a rest =>
          cases rest with
          | nil => rfl
          | cons b rest2 => simp [normalizeTxCountParams, List.take, List.set]
  | null => rfl
  | bool b => rfl
  | num n => rfl
  | str s => rfl
  | obj fs => rfl

/-- C3: `on_failure` increments the fail streak (saturating at u32
max) and, when the incremented streak reaches `ban_error_threshold`,
sets `banned_until_epoch` to `now + ban_seconds` and resets the
streak; `on_success` resets the streak and leaves the ban deadline
unchanged; `is_banned` holds exactly when `now` is before the ban
deadline. -/
theorem circuit_breaker_transitions (cb : CircuitBreaker) (cfg : BreakerConfig) (now : Nat)
    (h1 : cb.fail_streak + 1 ≤ u32max) (h2 : now + cfg.ban_seconds ≤ u64max) :
    ((cfg.ban_error_threshold ≤ cb.fail_streak + 1 →
        cb.on_failure cfg now =
          { fail_streak := 0, banned_until_epoch := now + cfg.ban_seconds }) ∧
      (cb.fail_streak + 1 < cfg.ban_error_threshold →
        cb.on_failure cfg now =
          { fail_streak := cb.fail_streak + 1,
            banned_until_epoch := cb.banned_until_epoch })) ∧
    cb.on_success = { fail_streak := 0, banned_until_epoch := cb.banned_until_epoch } ∧
    (cb.is_banned now = true ↔ now < cb.banned_until_epoch) := by
  refine ⟨⟨?_, ?_⟩, ?_, ?_⟩
  · intro hth
    simp only [CircuitBreaker.on_failure, min_eq_left h1, min_eq_left h2, if_pos hth]
  · intro hlt
    simp only [CircuitBreaker.on_failure, min_eq_left h1, if_neg (not_le.mpr hlt)]
  · rfl
  · simp [CircuitBreaker.is_banned]

/-- Witness for C3 at a concrete breaker, configuration and clock. -/
theorem circuit_breaker_transitions_witness :
    (CircuitBreaker.on_failure { fail_streak := 2, banned_until_epoch := 0 }
        { ban_error_threshold := 3, ban_seconds := 30 } 100 =
      { fail_streak := 0, banned_until_epoch := 130 }) ∧
    (CircuitBreaker.on_success { fail_streak := 2, banned_until_epoch := 7 } =
      { fail_streak := 0, banned_until_epoch := 7 }) := by
  have h := circuit_breaker_transitions { fail_streak := 2, banned_until_epoch := 0 }
    { ban_error_threshold := 3, ban_seconds := 30 } 100 (by decide) (by decide)
  exact ⟨h.1.1 (by decide), by
    have h2 := circuit_breaker_transitions { fail_streak := 2, banned_until_epoch := 7 }
      { ban_error_threshold := 3, ban_seconds := 30 } 100 (by decide) (by decide)
    exact h2.2.1⟩

theorem bucketInv_refill {k : Nat} {b : TokenBucket} (h : BucketInv k b) (now : ℚ) :
    BucketInv k (b.refill now) := by
  obtain ⟨hfin, hcap, hrps, htok0, htokc⟩ := h
  unfold TokenBucket.refill
  rw [hfin]
  simp only [Bool.false_eq_true, if_false]
  by_cases hdt : 0 < now - b.last
  · rw [if_pos hdt]
    refine ⟨rfl, hcap, hrps, ?_, ?_⟩
    · show (0 : ℚ) ≤ min (b.tokens + (now - b.last) * b.refill_per_sec) b.capacity
      exact le_min (by positivity) (le_trans htok0 htokc)
    · show min (b.tokens + (now - b.last) * b.refill_per_sec) b.capacity ≤ b.capacity
      exact min_le_right _ _
  · rw [if_neg hdt]
    exact ⟨hfin, hcap, hrps, htok0, htokc⟩

theorem bucketInv_try_take {k : Nat} {b : TokenBucket} (h : BucketInv k b)
    (now : ℚ) {n : ℚ} (hn : 0 ≤ n) : BucketInv k (b.try_take now n).2 := by
  have hfin := h.1
  unfold TokenBucket.try_take
  rw [hfin]
  simp only [Bool.false_eq_true, if_false]
  have h' := bucketInv_refill h now
  obtain ⟨hfin', hcap', hrps', htok0', htokc'⟩ := h'
  by_cases htake : n ≤ (b.refill now).tokens
  · rw [if_pos htake]
    refine ⟨hfin', hcap', hrps', ?_, ?_⟩
    · show (0 : ℚ) ≤ (b.refill now).tokens - n
      linarith
    · show (b.refill now).tokens - n ≤ (b.refill now).capacity
      linarith
  · rw [if_neg htake]
    exact ⟨hfin', hcap', hrps', htok0', htokc'⟩

theorem bucketInv_applyOps {k : Nat} (ops : List BucketOp)
    (hops : ∀ op ∈ ops, op.nonnegB = true) :
    ∀ b : TokenBucket, BucketInv k b → BucketInv k (applyOps b ops) := by
  induction ops with
  | nil => intro b hb; exact hb
  | cons op rest ih =>
      intro b hb
      have hop := hops op (List.mem_cons_self op rest)
      have hrest : ∀ op ∈ rest, op.nonnegB = true :=
        fun o ho => hops o (List.mem_cons_of_mem op ho)
      show BucketInv k (applyOps (applyOp b op) rest)
      refine ih hrest _ ?_
      cases op with
      | tryTake now n =>
          have hn : 0 ≤ n := by simpa [BucketOp.nonnegB] using hop
          exact bucketInv_try_take hb now hn
      | refillOp now => exact bucketInv_refill hb now

/-- C4: a bucket built with `max_tps = 0` answers every `try_take`
with success and an unchanged state, for every clock reading (so the
clock is neither consulted nor updated); a bucket built with
`max_tps = k > 0` keeps its token count within `[0, k]` after every
sequence of `try_take` and `refill` operations with nonnegative
requests. -/
theorem token_bucket_bounds (now₀ : ℚ) :
    (∀ now n : ℚ, (TokenBucket.new 0 now₀).try_take now n = (true, TokenBucket.new 0 now₀)) ∧
    (∀ k : Nat, k ≠ 0 → ∀ ops : List BucketOp, (∀ op ∈ ops, op.nonnegB = true) →
      0 ≤ (applyOps (TokenBucket.new k now₀) ops).tokens ∧
        (applyOps (TokenBucket.new k now₀) ops).tokens ≤ (k : ℚ)) := by
  constructor
  · intro now n
    simp [TokenBucket.new, TokenBucket.try_take]
  · intro k hk ops hops
    have hinv0 : BucketInv k (TokenBucket.new k now₀) := by
      unfold TokenBucket.new BucketInv
      rw [if_neg hk]
      refine ⟨rfl, rfl, by positivity, by positivity, le_refl _⟩
    have hinv := bucketInv_applyOps ops hops _ hinv0
    exact ⟨hinv.2.2.2.1, hinv.2.1 ▸ hinv.2.2.2.2⟩

/-- Witness for C4: a concrete bucket with capacity 2 run through a
concrete operation sequence stays within bounds, and the unlimited
bucket always admits. -/
theorem token_bucket_bounds_witness :
    ((TokenBucket.new 0 0).try_take 5 1 = (true, TokenBucket.new 0 0)) ∧
    (0 ≤ (applyOps (TokenBucket.new 2 0)
        [.tryTake 0 1, .tryTake 0 1, .tryTake 0 1, .refillOp 10, .tryTake 10 1]).tokens ∧
      (applyOps (TokenBucket.new 2 0)
        [.tryTake 0 1, .tryTake 0 1, .tryTake 0 1, .refillOp 10, .tryTake 10 1]).tokens ≤
        (2 : ℚ)) :=
  ⟨(token_bucket_bounds 0).1 5 1,
    (token_bucket_bounds 0).2 2 (by decide) _ (by decide)⟩

theorem getField_errorResponse (id : Json) (c : Int) (m : String) :
    (errorResponse id c m).getField "id" = some id := rfl

theorem getField_setField_obj (fs : List (String × Json)) (k : String) (v : Json) :
    (Json.setField (.obj fs) k v).getField k = some v := by
  simp only [Json.setField, Json.getField]
  induction fs with
  | nil => simp [setFieldList, findField]
  | cons kv rest ih =>
      obtain ⟨k1, v1⟩ := kv
      by_cases hk : k1 = k
      · simp [setFieldList, findField, hk]
      · simp [setFieldList, findField, hk, ih]

theorem broadcastLoop_err_id (idResp : Json) (up : Nat → UpstreamResult) :
    ∀ (n idx : Nat) (fe : Option String),
      (broadcastLoop idResp up n idx fe).status ≠ 200 →
      (broadcastLoop idResp up n idx fe).body.getField "id" = some idResp := by
  intro n
  induction n with
  | zero => intro idx fe _; exact getField_errorResponse idResp _ _
  | succ m ih =>
      intro idx fe hst
      cases h : up idx with
      | ok v =>
          by_cases he : (v.getField "error").isNone
          · exfalso; apply hst; simp [broadcastLoop, h, he]
          · simp only [broadcastLoop, h, he, Bool.false_eq_true, if_false] at hst ⊢
            exact ih _ _ hst
      | badJson e =>
          simp only [broadcastLoop, h] at hst ⊢
          exact ih _ _ hst
      | httpErr =>
          simp only [broadcastLoop, h] at hst ⊢
          exact ih _ _ hst
      | timeout =>
          simp only [broadcastLoop, h] at hst ⊢
          exact ih _ _ hst

theorem broadcastLoop_id (idResp : Json) (up : Nat → UpstreamResult)
    (hup : ∀ i v, up i = .ok v → (v.getField "error").isNone = true →
      v.getField "id" = some idResp) :
    ∀ (n idx : Nat) (fe : Option String),
      (broadcastLoop idResp up n idx fe).body.getField "id" = some idResp := by
  intro n
  induction n with
  | zero => intro idx fe; exact getField_errorResponse idResp _ _
  | succ m ih =>
      intro idx fe
      cases h : up idx with
      | ok v =>
          by_cases he : (v.getField "error").isNone
          · simp only [broadcastLoop, h, he, if_true]
            exact hup idx v h he
          · simp only [broadcastLoop, h, he, Bool.false_eq_true, if_false]
            exact ih _ _
      | badJson e => simp only [broadcastLoop, h]; exact ih _ _
      | httpErr => simp only [broadcastLoop, h]; exact ih _ _
      | timeout => simp only [broadcastLoop, h]; exact ih _ _

theorem failoverLoop_err_id (cands : List ProviderState) (idResp : Json)
    (adm : Nat → Bool) (up : Nat → UpstreamResult) :
    ∀ (n aIdx uIdx rr : Nat) (le : String),
      (failoverLoop cands idResp adm up n aIdx uIdx rr le).status ≠ 200 →
      (failoverLoop cands idResp adm up n aIdx uIdx rr le).body.getField "id" =
        some idResp := by
  intro n
  induction n with
  | zero => intro aIdx uIdx rr le _; exact getField_errorResponse idResp _ _
  | succ m ih =>
      intro aIdx uIdx rr le hst
      cases hf : findAdmit adm
          (rotateL cands (if cands.isEmpty then rr else rr % cands.length)) aIdx with
      | none =>
          simp only [failoverLoop, hf] at hst ⊢
          exact getField_errorResponse idResp _ _
      | some pa =>
          obtain ⟨prov, aIdx2⟩ := pa
          cases h : up uIdx with
          | ok v =>
              by_cases he : (v.getField "error").isNone
              · exfalso; apply hst
                simp only [failoverLoop, hf, h, he, if_true]
              · simp only [failoverLoop, hf, h, he, Bool.false_eq_true, if_false] at hst ⊢
                exact ih _ _ _ _ hst
          | badJson e =>
              simp only [failoverLoop, hf, h] at hst ⊢
              exact ih _ _ _ _ hst
          | httpErr =>
              simp only [failoverLoop, hf, h] at hst ⊢
              exact ih _ _ _ _ hst
          | timeout =>
              simp only [failoverLoop, hf, h] at hst ⊢
              exact ih _ _ _ _ hst

theorem failoverLoop_id (cands : List ProviderState) (idResp : Json)
    (adm : Nat → Bool) (up : Nat → UpstreamResult)
    (hup : ∀ i v, up i = .ok v → (v.getField "error").isNone = true →
      v.getField "id" = some idResp) :
    ∀ (n aIdx uIdx rr : Nat) (le : String),
      (failoverLoop cands idResp adm up n aIdx uIdx rr le).body.getField "id" =
        some idResp := by
  intro n
  induction n with
  | zero => intro aIdx uIdx rr le; exact getField_errorResponse idResp _ _
  | succ m ih =>
      intro aIdx uIdx rr le
      cases hf : findAdmit adm
          (rotateL cands (if cands.isEmpty then rr else rr % cands.length)) aIdx with
      | none =>
          simp only [failoverLoop, hf]
          exact getField_errorResponse idResp _ _
      | some pa =>
          obtain ⟨prov, aIdx2⟩ := pa
          cases h : up uIdx with
          | ok v =>
              by_cases he : (v.getField "error").isNone
              · simp only [failoverLoop, hf, h, he, if_true]
                exact hup uIdx v h he
              · simp only [failoverLoop, hf, h, he, Bool.false_eq_true, if_false]
                exact ih _ _ _ _
          | badJson e => simp only [failoverLoop, hf, h]; exact ih _ _ _ _
          | httpErr => simp only [failoverLoop, hf, h]; exact ih _ _ _ _
          | timeout => simp only [failoverLoop, hf, h]; exact ih _ _ _ _

theorem relayNoCache_err_id (cfg : RelayConfig) (reg : ProviderRegistry) (now : Nat)
    (env : RelayEnv) (body : Json) :
    (relayNoCache cfg reg now env body).status ≠ 200 →
    (relayNoCache cfg reg now env body).body.getField "id" = some (requestId body) := by
  intro hst
  unfold relayNoCache at hst ⊢
  by_cases h1 : (relayCandidates cfg reg now).isEmpty
  · simp only [h1, if_true]
    exact getField_errorResponse _ _ _
  · simp only [h1, Bool.false_eq_true, if_false] at hst ⊢
    by_cases h2 : cfg.broadcast_methods.contains (requestMethod body)
    · simp only [h2, if_true] at hst ⊢
      by_cases h3 : ((chooseBroadcast env.adm (max cfg.broadcast_redundancy 1)
          (unique_by_low_latency (relayCandidates cfg reg now)) 0 0).1).isEmpty
      · simp only [h3, if_true]
        exact getField_errorResponse _ _ _
      · simp only [h3, Bool.false_eq_true, if_false] at hst ⊢
        exact broadcastLoop_err_id _ _ _ _ _ hst
    · simp only [h2, Bool.false_eq_true, if_false] at hst ⊢
      exact failoverLoop_err_id _ _ _ _ _ _ _ _ _ hst

theorem relayNoCache_id (cfg : RelayConfig) (reg : ProviderRegistry) (now : Nat)
    (env : RelayEnv) (body : Json)
    (hup : ∀ i v, env.upstream i = .ok v → (v.getField "error").isNone = true →
      v.getField "id" = some (requestId body)) :
    (relayNoCache cfg reg now env body).body.getField "id" = some (requestId body) := by
  unfold relayNoCache
  by_cases h1 : (relayCandidates cfg reg now).isEmpty
  · simp only [h1, if_true]
    exact getField_errorResponse _ _ _
  · simp only [h1, Bool.false_eq_true, if_false]
    by_cases h2 : cfg.broadcast_methods.contains (requestMethod body)
    · simp only [h2, if_true]
      by_cases h3 : ((chooseBroadcast env.adm (max cfg.broadcast_redundancy 1)
          (unique_by_low_latency (relayCandidates cfg reg now)) 0 0).1).isEmpty
      · simp only [h3, if_true]
        exact getField_errorResponse _ _ _
      · simp only [h3, Bool.false_eq_true, if_false]
        exact broadcastLoop_id _ _ hup _ _ _
    · simp only [h2, Bool.false_eq_true, if_false]
      exact failoverLoop_id _ _ _ _ hup _ _ _ _ _

theorem relay_err_id (cfg : RelayConfig) (reg : ProviderRegistry) (now : Nat)
    (env : RelayEnv) (body : Json) :
    (relay cfg reg now env body).status ≠ 200 →
    (relay cfg reg now env body).body.getField "id" = some (requestId body) := by
  unfold relay
  cases h : cacheLookup cfg env body with
  | some c => intro hst; exact absurd rfl hst
  | none => exact relayNoCache_err_id cfg reg now env body

theorem relay_id (cfg : RelayConfig) (reg : ProviderRegistry) (now : Nat)
    (env : RelayEnv) (body : Json)
    (hcache : ∀ m s v, env.cache m s = some v → ∃ fs, v = Json.obj fs)
    (hup : ∀ i v, env.upstream i = .ok v → (v.getField "error").isNone = true →
      v.getField "id" = some (requestId body)) :
    (relay cfg reg now env body).body.getField "id" = some (requestId body) := by
  unfold relay
  cases h : cacheLookup cfg env body with
  | some c =>
      have hc : ∃ fs, c = Json.obj fs := by
        unfold cacheLookup at h
        by_cases ht : 0 < cacheTtl cfg body
        · rw [if_pos ht] at h
          exact hcache _ _ _ h
        · rw [if_neg ht] at h
          exact absurd h (by simp)
      obtain ⟨fs, rfl⟩ := hc
      exact getField_setField_obj fs "id" (requestId body)
  | none => exact relayNoCache_id cfg reg now env body hup

/-- C1: for every terminal outcome of `relay` — cache hit, upstream
success on the broadcast or the failover path, and every synthesized
error response — the `id` member of the response equals the `id` the
client sent (`requestId`).  The environment is assumed to follow the
JSON-RPC 2.0 upstream wire contract of the spec: successful upstream
bodies are objects echoing the dispatched id, hence cached values
(which are such bodies) are objects. -/
theorem relay_response_id_equals_request_id (cfg : RelayConfig) (reg : ProviderRegistry)
    (now : Nat) (env : RelayEnv) (body : Json)
    (hcache : ∀ m s v, env.cache m s = some v → ∃ fs, v = Json.obj fs)
    (hup : ∀ i v, env.upstream i = .ok v → (v.getField "error").isNone = true →
      v.getField "id" = some (requestId body)) :
    (relay cfg reg now env body).body.getField "id" = some (requestId body) :=
  relay_id cfg reg now env body hcache hup

/-- Witness for C1: a concrete request with id 7, served by a healthy
provider whose upstream response echoes the id. -/
theorem relay_response_id_equals_request_id_witness :
    (relay cfgW regW 0 envOkW bodyW).body.getField "id" = some (.num 7) := by
  exact relay_response_id_equals_request_id cfgW regW 0 envOkW bodyW
    (fun m s v hv => absurd hv (by simp [envOkW]))
    (fun i v hv hne => by
      have hve : okBodyW = v := UpstreamResult.ok.inj hv
      subst hve
      rfl)

/-- C10: a request body with no `id` member is given the JSON number
0 as id: the upstream payload carries id 0, and every synthesized
error response (no-healthy-candidates, rate-limited, and the
all-attempts-failed 502s, i.e. every non-200 outcome) returns id 0 to
the client. -/
theorem relay_missing_id_defaults_to_zero (body : Json) (h : body.getField "id" = none) :
    (relayPayload body).getField "id" = some (.num 0) ∧
    ∀ cfg reg now env, (relay cfg reg now env body).status ≠ 200 →
      (relay cfg reg now env body).body.getField "id" = some (.num 0) := by
  have hid : requestId body = .num 0 := by simp [requestId, h]
  refine ⟨?_, ?_⟩
  · simp [relayPayload, Json.getField, findField, hid]
  · intro cfg reg now env hst
    have h2 := relay_err_id cfg reg now env body hst
    rwa [hid] at h2

/-- Witness for C10: a concrete id-less request; with no candidates
available, the synthesized 500 carries id 0, and the payload would
have carried id 0. -/
theorem relay_missing_id_defaults_to_zero_witness :
    (relayPayload bodyNoId).getField "id" = some (.num 0) ∧
    (relay cfgW regEmpty 0 envFailW bodyNoId).body.getField "id" = some (.num 0) := by
  have h := relay_missing_id_defaults_to_zero bodyNoId rfl
  exact ⟨h.1, h.2 cfgW regEmpty 0 envFailW (by decide)⟩

theorem mem_apply_weights {p : ProviderState} :
    ∀ {l : List ProviderState}, p ∈ apply_weights l → p ∈ l := by
  intro l
  induction l with
  | nil => intro h; exact absurd h (List.not_mem_nil p)
  | cons q rest ih =>
      intro h
      simp only [apply_weights] at h
      rcases List.mem_append.mp h with h1 | h2
      · exact (List.eq_of_mem_replicate h1) ▸ List.mem_cons_self q rest
      · exact List.mem_cons_of_mem q (ih h2)

theorem now_healthy_spec {now : Nat} {p : ProviderState} (h : now_healthy now p = true) :
    p.healthy = true ∧ p.breaker.banned_until_epoch ≤ now := by
  simp only [now_healthy, Bool.and_eq_true, Bool.not_eq_true'] at h
  refine ⟨h.1, ?_⟩
  have h2 := h.2
  simp only [CircuitBreaker.is_banned, decide_eq_false_iff_not, not_lt] at h2
  exact h2

/-- C2: candidate selection emits only providers that are healthy and
not banned (`banned_until_epoch ≤ now`); when some primary qualifies
the candidates are drawn from the primaries, otherwise from the
secondaries; and when both filtered tiers are empty a request that
does not hit the cache fails with the "No healthy RPCs available"
error (HTTP 500, JSON-RPC code -32000). -/
theorem healthy_candidates_spec (now : Nat) (reg : ProviderRegistry) :
    (∀ p ∈ healthy_candidates now reg,
        p.healthy = true ∧ p.breaker.banned_until_epoch ≤ now) ∧
    ((reg.primaries.filter (now_healthy now)).isEmpty = false →
      ∀ p ∈ healthy_candidates now reg, p ∈ reg.primaries) ∧
    ((reg.primaries.filter (now_healthy now)).isEmpty = true →
      ∀ p ∈ healthy_candidates now reg, p ∈ reg.secondaries) ∧
    (∀ cfg env body, reg.primaries.filter (now_healthy now) = [] →
      reg.secondaries.filter (now_healthy now) = [] →
      (∀ s, env.cache (requestMethod body) s = none) →
      relay cfg reg now env body =
        ⟨500, errorResponse (requestId body) (-32000) "No healthy RPCs available"⟩) := by
  refine ⟨?_, ?_, ?_, ?_⟩
  · intro p hp
    by_cases h1 : (reg.primaries.filter (now_healthy now)).isEmpty
    · simp only [healthy_candidates, h1, Bool.not_true, Bool.false_eq_true, if_false] at hp
      exact now_healthy_spec (List.mem_filter.mp (mem_apply_weights hp)).2
    · rw [Bool.not_eq_true] at h1
      simp only [healthy_candidates, h1, Bool.not_false, if_true] at hp
      exact now_healthy_spec (List.mem_filter.mp (mem_apply_weights hp)).2
  · intro h1 p hp
    simp only [healthy_candidates, h1, Bool.not_false, if_true] at hp
    exact (List.mem_filter.mp (mem_apply_weights hp)).1
  · intro h1 p hp
    simp only [healthy_candidates, h1, Bool.not_true, Bool.false_eq_true, if_false] at hp
    exact (List.mem_filter.mp (mem_apply_weights hp)).1
  · intro cfg env body hp hs hcache
    have hcands : healthy_candidates now reg = [] := by
      simp [healthy_candidates, hp, hs, apply_weights]
    have hrc : relayCandidates cfg reg now = [] := by
      unfold relayCandidates
      rw [hcands]
      cases cfg.latency_threshold_ms with
      | none => rfl
      | some th => simp [filter_latency, minLatency]
    have hclook : cacheLookup cfg env body = none := by
      unfold cacheLookup
      by_cases ht : 0 < cacheTtl cfg body
      · rw [if_pos ht]
        exact hcache _
      · rw [if_neg ht]
    unfold relay
    rw [hclook]
    simp only [relayNoCache, hrc, List.isEmpty_nil, if_true]

/-- Witness for C2: with an empty registry (both filtered tiers are
empty) and an empty cache, a concrete request receives the 500 "No
healthy RPCs available" error. -/
theorem healthy_candidates_spec_witness :
    relay cfgW regEmpty 0 envFailW bodyW =
      ⟨500, errorResponse (.num 7) (-32000) "No healthy RPCs available"⟩ :=
  (healthy_candidates_spec 0 regEmpty).2.2.2 cfgW envFailW bodyW rfl rfl (fun _ => rfl)

theorem buildMap_mem : ∀ (l : List ProviderState) (m0 : String → Option ProviderState)
    (u : String) (p : ProviderState), buildMap l m0 u = some p →
    (p ∈ l ∧ p.url = u) ∨ m0 u = some p := by
  intro l
  induction l with
  | nil => intro m0 u p h; exact Or.inr h
  | cons q rest ih =>
      intro m0 u p h
      rcases ih _ u p h with h1 | h2
      · exact Or.inl ⟨List.mem_cons_of_mem q h1.1, h1.2⟩
      · unfold insertProv at h2
        by_cases hu : u = q.url
        · rw [if_pos hu] at h2
          obtain rfl : q = p := by injection h2
          exact Or.inl ⟨List.mem_cons_self q rest, hu.symm⟩
        · rw [if_neg hu] at h2
          exact Or.inr h2

theorem registryMap_sound (reg : ProviderRegistry) (u : String) (p : ProviderState)
    (h : registryMap reg u = some p) : p ∈ reg.all ∧ p.url = u := by
  rcases buildMap_mem reg.all _ u p h with h1 | h2
  · exact h1
  · exact absurd h2 (by simp)

theorem reconcileOne_snd (ep : Endpoint) (m : String → Option ProviderState) (now : ℚ)
    (u : String) (hu : u ≠ ep.url) : (reconcileOne ep m now).2 u = m u := by
  unfold reconcileOne
  cases m ep.url with
  | some p => simp [hu]
  | none => rfl

theorem reconcileList_length (now : ℚ) : ∀ (eps : List Endpoint)
    (m : String → Option ProviderState),
    (reconcileList eps m now).1.length = eps.length := by
  intro eps
  induction eps with
  | nil => intro m; rfl
  | cons ep rest ih =>
      intro m
      simp only [reconcileList, List.length_cons]
      rw [ih]

theorem reconcileList_spec (now : ℚ) : ∀ (eps : List Endpoint)
    (m : String → Option ProviderState), (eps.map Endpoint.url).Nodup →
    (∀ i ep, eps.get? i = some ep →
      ((m ep.url = none → (reconcileList eps m now).1.get? i =
          some (ProviderState.from_endpoint ep now)) ∧
        (∀ p, m ep.url = some p → (reconcileList eps m now).1.get? i =
          some (reuseUpdate ep p now)))) ∧
    (∀ u, (∀ ep ∈ eps, ep.url ≠ u) → (reconcileList eps m now).2 u = m u) := by
  intro eps
  induction eps with
  | nil =>
      intro m _
      exact ⟨fun i ep h => absurd h (by simp), fun u _ => rfl⟩
  | cons ep0 rest ih =>
      intro m hnd
      rw [List.map_cons, List.nodup_cons] at hnd
      obtain ⟨hni, hnd'⟩ := hnd
      have ihm := ih (reconcileOne ep0 m now).2 hnd'
      constructor
      · intro i ep hget
        cases i with
        | zero =>
            obtain rfl : ep0 = ep := by injection hget
            constructor
            · intro hm
              simp only [reconcileList, List.get?_cons_zero]
              unfold reconcileOne
              rw [hm]
            · intro p hm
              simp only [reconcileList, List.get?_cons_zero]
              unfold reconcileOne
              rw [hm]
        | succ j =>
            have hget' : rest.get? j = some ep := hget
            have hep : ep ∈ rest := List.get?_mem hget'
            have hne : ep.url ≠ ep0.url := by
              intro he
              exact hni (he ▸ List.mem_map_of_mem Endpoint.url hep)
            have hagree : (reconcileOne ep0 m now).2 ep.url = m ep.url :=
              reconcileOne_snd ep0 m now ep.url hne
            have hspec := (ihm.1 j ep hget')
            constructor
            · intro hm
              show (reconcileList rest (reconcileOne ep0 m now).2 now).1.get? j = _
              exact hspec.1 (hagree.trans hm)
            · intro p hm
              show (reconcileList rest (reconcileOne ep0 m now).2 now).1.get? j = _
              exact hspec.2 p (hagree.trans hm)
      · intro u hu
        have h0 : ep0.url ≠ u := hu ep0 (List.mem_cons_self ep0 rest)
        have hrest : ∀ ep ∈ rest, ep.url ≠ u :=
          fun e he => hu e (List.mem_cons_of_mem ep0 he)
        show (reconcileList rest (reconcileOne ep0 m now).2 now).2 u = m u
        rw [ihm.2 u hrest]
        exact reconcileOne_snd ep0 m now u (fun he => h0 he.symm)

theorem reuseUpdate_url (ep : Endpoint) (p : ProviderState) (now : ℚ) :
    (reuseUpdate ep p now).url = p.url := by
  unfold reuseUpdate
  by_cases h : ep.max_tps.getD 0 ≠ p.max_tps
  · rw [if_pos h]
  · rw [if_neg h]

theorem reconcileList_urls (now : ℚ) : ∀ (eps : List Endpoint)
    (m : String → Option ProviderState), (∀ u p, m u = some p → p.url = u) →
    (∀ q ∈ (reconcileList eps m now).1, ∃ ep ∈ eps, q.url = ep.url) ∧
    (∀ u p, (reconcileList eps m now).2 u = some p → p.url = u) := by
  intro eps
  induction eps with
  | nil =>
      intro m hm
      exact ⟨fun q hq => absurd hq (by simp [reconcileList]), hm⟩
  | cons ep0 rest ih =>
      intro m hm
      have hm' : ∀ u p, (reconcileOne ep0 m now).2 u = some p → p.url = u := by
        intro u p h
        unfold reconcileOne at h
        cases hcase : m ep0.url with
        | some w =>
            rw [hcase] at h
            simp only at h
            by_cases hu : u = ep0.url
            · rw [if_pos hu] at h; exact absurd h (by simp)
            · rw [if_neg hu] at h; exact hm u p h
        | none => rw [hcase] at h; exact hm u p h
      have ihm := ih (reconcileOne ep0 m now).2 hm'
      constructor
      · intro q hq
        rcases List.mem_cons.mp hq with h1 | h2
        · refine ⟨ep0, List.mem_cons_self ep0 rest, ?_⟩
          subst h1
          unfold reconcileOne
          cases hcase : m ep0.url with
          | some w =>
              simp only
              rw [reuseUpdate_url]
              exact hm ep0.url w hcase
          | none => rfl
        · obtain ⟨ep, hin, hurl⟩ := ihm.1 q h2
          exact ⟨ep, List.mem_cons_of_mem ep0 hin, hurl⟩
      · exact ihm.2

theorem reconcileList_append (now : ℚ) : ∀ (l1 l2 : List Endpoint)
    (m : String → Option ProviderState),
    (reconcileList (l1 ++ l2) m now).1 =
      (reconcileList l1 m now).1 ++
        (reconcileList l2 (reconcileList l1 m now).2 now).1 ∧
    (reconcileList (l1 ++ l2) m now).2 =
      (reconcileList l2 (reconcileList l1 m now).2 now).2 := by
  intro l1
  induction l1 with
  | nil => intro l2 m; exact ⟨rfl, rfl⟩
  | cons ep l1 ih =>
      intro l2 m
      have h := ih l2 (reconcileOne ep m now).2
      constructor
      · simp only [List.cons_append, reconcileList, List.append_eq, h.1]
      · simp only [List.cons_append, reconcileList, List.append_eq, h.2]

theorem reuseUpdate_fields (ep : Endpoint) (p : ProviderState) (now : ℚ) :
    (reuseUpdate ep p now).url = p.url ∧
    (reuseUpdate ep p now).call_count = p.call_count ∧
    (reuseUpdate ep p now).errors = p.errors ∧
    (reuseUpdate ep p now).breaker = p.breaker ∧
    (reuseUpdate ep p now).healthy = p.healthy ∧
    (reuseUpdate ep p now).latest_block = p.latest_block ∧
    (reuseUpdate ep p now).behind = p.behind ∧
    (reuseUpdate ep p now).latency_ms = p.latency_ms ∧
    (reuseUpdate ep p now).weight = max ep.weight 1 ∧
    (ep.max_tps.getD 0 = p.max_tps → (reuseUpdate ep p now).bucket = p.bucket) ∧
    (ep.max_tps.getD 0 ≠ p.max_tps →
      (reuseUpdate ep p now).bucket = TokenBucket.new (ep.max_tps.getD 0) now) := by
  unfold reuseUpdate
  by_cases h : ep.max_tps.getD 0 ≠ p.max_tps
  · rw [if_pos h]
    exact ⟨rfl, rfl, rfl, rfl, rfl, rfl, rfl, rfl, rfl,
      fun he => absurd he h, fun _ => rfl⟩
  · rw [if_neg h]
    exact ⟨rfl, rfl, rfl, rfl, rfl, rfl, rfl, rfl, rfl,
      fun _ => rfl, fun hne => absurd hne h⟩

/-- C5: reconciliation keeps, for each URL present both before (in
the registry map) and after (in the new endpoint lists), the same
provider state — counters, breaker, health and observation fields
unchanged — updating only the weight, and replacing the token bucket
by a fresh full one exactly when `max_tps` changed; positions with a
URL new to the registry get fresh zero-counter state; and every
surviving provider carries a URL of the new list, so URLs absent from
it are dropped. -/
theorem reconcile_registry_preserves (reg : ProviderRegistry) (eps : RpcEndpoints)
    (now : ℚ) (hnodup : ((eps.primary ++ eps.secondary).map Endpoint.url).Nodup) :
    ((reconcile_registry reg eps now).primaries.length = eps.primary.length ∧
      (reconcile_registry reg eps now).secondaries.length = eps.secondary.length) ∧
    (∀ u p, registryMap reg u = some p → p ∈ reg.all ∧ p.url = u) ∧
    (∀ i ep, (eps.primary ++ eps.secondary).get? i = some ep →
      ((registryMap reg ep.url = none →
          ((reconcile_registry reg eps now).primaries ++
            (reconcile_registry reg eps now).secondaries).get? i =
            some (ProviderState.from_endpoint ep now)) ∧
        (∀ p, registryMap reg ep.url = some p →
          ∃ q, ((reconcile_registry reg eps now).primaries ++
              (reconcile_registry reg eps now).secondaries).get? i = some q ∧
            q.url = p.url ∧ q.call_count = p.call_count ∧ q.errors = p.errors ∧
            q.breaker = p.breaker ∧ q.healthy = p.healthy ∧
            q.latest_block = p.latest_block ∧ q.behind = p.behind ∧
            q.latency_ms = p.latency_ms ∧ q.weight = max ep.weight 1 ∧
            (ep.max_tps.getD 0 = p.max_tps → q.bucket = p.bucket) ∧
            (ep.max_tps.getD 0 ≠ p.max_tps →
              q.bucket = TokenBucket.new (ep.max_tps.getD 0) now)))) ∧
    (∀ q ∈ (reconcile_registry reg eps now).primaries ++
        (reconcile_registry reg eps now).secondaries,
      ∃ ep ∈ eps.primary ++ eps.secondary, q.url = ep.url) := by
  have happ := reconcileList_append now eps.primary eps.secondary (registryMap reg)
  have houtall : (reconcile_registry reg eps now).primaries ++
      (reconcile_registry reg eps now).secondaries =
      (reconcileList (eps.primary ++ eps.secondary) (registryMap reg) now).1 := by
    show (reconcileList eps.primary (registryMap reg) now).1 ++
        (reconcileList eps.secondary
          (reconcileList eps.primary (registryMap reg) now).2 now).1 = _
    exact happ.1.symm
  have hspec := reconcileList_spec now (eps.primary ++ eps.secondary)
    (registryMap reg) hnodup
  have hurls := reconcileList_urls now (eps.primary ++ eps.secondary) (registryMap reg)
    (fun u p h => (registryMap_sound reg u p h).2)
  refine ⟨⟨?_, ?_⟩, fun u p h => registryMap_sound reg u p h, ?_, ?_⟩
  · show (reconcileList eps.primary (registryMap reg) now).1.length = _
    exact reconcileList_length now eps.primary _
  · show (reconcileList eps.secondary
      (reconcileList eps.primary (registryMap reg) now).2 now).1.length = _
    exact reconcileList_length now eps.secondary _
  · intro i ep hget
    constructor
    · intro hm
      rw [houtall]
      exact (hspec.1 i ep hget).1 hm
    · intro p hm
      refine ⟨reuseUpdate ep p now, ?_, ?_⟩
      · rw [houtall]
        exact (hspec.1 i ep hget).2 p hm
      · exact reuseUpdate_fields ep p now
  · intro q hq
    rw [houtall] at hq
    exact hurls.1 q hq

/-- Witness for C5: after the reload, the surviving provider keeps
call_count 42, errors 3 and its breaker, takes weight 3, and keeps
its bucket since `max_tps` did not change. -/
theorem reconcile_registry_preserves_witness :
    ∃ q, ((reconcile_registry regOld epsNew 0).primaries ++
        (reconcile_registry regOld epsNew 0).secondaries).get? 0 = some q ∧
      q.call_count = 42 ∧ q.errors = 3 ∧
      q.breaker = { fail_streak := 1, banned_until_epoch := 99 } ∧
      q.weight = 3 ∧ q.bucket = TokenBucket.new 5 0 := by
  have h := reconcile_registry_preserves regOld epsNew 0 (by decide)
  have h2 := (h.2.2.1 0 epA rfl).2 provOld rfl
  obtain ⟨q, hq, hf⟩ := h2
  refine ⟨q, hq, ?_, ?_, ?_, ?_, ?_⟩
  · exact hf.2.1.trans rfl
  · exact hf.2.2.1.trans rfl
  · exact hf.2.2.2.1.trans rfl
  · exact hf.2.2.2.2.2.2.2.2.1.trans rfl
  · exact (hf.2.2.2.2.2.2.2.2.2.1 rfl).trans rfl

theorem get?_zip_of_get? {α β : Type} : ∀ (l : List α) (l2 : List β) (i : Nat) (a : α)
    (b : β), l.get? i = some a → l2.get? i = some b → (l.zip l2).get? i = some (a, b) := by
  intro l
  induction l with
  | nil => intro l2 i a b h; exact absurd h (by simp)
  | cons x rest ih =>
      intro l2 i a b h1 h2
      cases l2 with
      | nil => exact absurd h2 (by simp)
      | cons y rest2 =>
          cases i with
          | zero =>
              obtain rfl : x = a := by injection h1
              obtain rfl : y = b := by injection h2
              rfl
          | succ j => exact ih rest2 j a b h1 h2

theorem get?_of_get?_zip {α β : Type} : ∀ (l : List α) (l2 : List β) (i : Nat)
    (ab : α × β), (l.zip l2).get? i = some ab →
    l.get? i = some ab.1 ∧ l2.get? i = some ab.2 := by
  intro l
  induction l with
  | nil => intro l2 i ab h; exact absurd h (by simp)
  | cons x rest ih =>
      intro l2 i ab h
      cases l2 with
      | nil => exact absurd h (by simp)
      | cons y rest2 =>
          cases i with
          | zero =>
              obtain rfl : (x, y) = ab := by injection h
              exact ⟨rfl, rfl⟩
          | succ j => exact ih rest2 j ab h

theorem probe_fail_healthy (p : ProviderState) (r : ProbeResult)
    (h : (probe p r).2 = none) : (probe p r).1.healthy = false := by
  cases r with
  | transportErr => rfl
  | decodeErr => rfl
  | body v lat =>
      simp only [probe] at h ⊢
      cases hh : probeResultBlock v with
      | some bn => rw [hh] at h; exact absurd h (by simp)
      | none => rfl

theorem probe_success_block (p : ProviderState) (r : ProbeResult) (bn : Nat)
    (h : (probe p r).2 = some bn) :
    (probe p r).1.latest_block = bn ∧ (probe p r).1.healthy = true := by
  cases r with
  | transportErr => exact absurd h (by simp [probe])
  | decodeErr => exact absurd h (by simp [probe])
  | body v lat =>
      simp only [probe] at h ⊢
      cases hh : probeResultBlock v with
      | some b =>
          rw [hh] at h
          obtain rfl : b = bn := by injection h
          exact ⟨rfl, rfl⟩
      | none => rw [hh] at h; exact absurd h (by simp)

/-- C7 (amended): on a decoded body whose `result` member is a string
that `hex_to_u64` parses — any leading repetitions of `0x` stripped,
the rest read as base-16 (an optional leading `+` allowed) — the
prober records the block and the latency and sets healthy; in every
other case (transport failure, undecodable body, missing, non-string
or unparseable `result`) it sets healthy to false and leaves
latest_block, latency_ms and behind untouched.  The original claim
additionally demanded failure for strings lacking the `0x` prefix,
which the code does not do. -/
theorem probe_spec (p : ProviderState) :
    (∀ v lat bn, probeResultBlock v = some bn →
      probe p (.body v lat) =
        ({ p with latest_block := bn, latency_ms := lat, healthy := true }, some bn)) ∧
    (∀ v lat, probeResultBlock v = none →
      probe p (.body v lat) = ({ p with healthy := false }, none)) ∧
    probe p .transportErr = ({ p with healthy := false }, none) ∧
    probe p .decodeErr = ({ p with healthy := false }, none) := by
  refine ⟨?_, ?_, rfl, rfl⟩
  · intro v lat bn h
    simp only [probe, h]
  · intro v lat h
    simp only [probe, h]

/-- Counterexample to C7 as stated: a `result` string without the
`0x` prefix, here "5", still parses (`trim_start_matches` strips
nothing and `from_str_radix` accepts it), so the prober records block
5 and sets healthy = true where the claim demands healthy = false. -/
theorem probe_unprefixed_hex_counterexample :
    (probe provA (.body (.obj [("result", .str "5")]) 7)).1.healthy = true ∧
    (probe provA (.body (.obj [("result", .str "5")]) 7)).1.latest_block = 5 ∧
    (probe provA (.body (.obj [("result", .str "5")]) 7)).2 = some 5 := ⟨rfl, rfl, rfl⟩

/-- Witness for C7 at concrete probe outcomes: a prefixed hex result,
an unparseable result, and a transport failure. -/
theorem probe_spec_witness :
    probe provA (.body (.obj [("result", .str "0x64")]) 7) =
      ({ provA with latest_block := 100, latency_ms := 7, healthy := true }, some 100) ∧
    probe provA (.body (.obj [("result", .str "zz")]) 7) =
      ({ provA with healthy := false }, none) ∧
    probe provA .transportErr = ({ provA with healthy := false }, none) := by
  have h := probe_spec provA
  exact ⟨h.1 _ 7 100 rfl, h.2.1 _ 7 rfl, h.2.2.1⟩

/-- Counterexample to C6 as stated: provider A failed this sweep, so
its `behind` stays 0 while the global maximum is 110 and its stored
`latest_block` is 100 — the claimed equation demands behind = 10. -/
theorem sweep_behind_counterexample :
    ((sweep psC6 rsC6 6).get? 0).map ProviderState.behind = some 0 ∧
    ((sweep psC6 rsC6 6).get? 0).map ProviderState.latest_block = some 100 ∧
    sweepGlobalMax psC6 rsC6 = 110 ∧ (0 : Nat) ≠ 110 - 100 :=
  ⟨rfl, rfl, rfl, by decide⟩

/-- C6 (amended): after a completed sweep, every provider that
succeeded this sweep has `behind = global_max − latest_block` (Nat
subtraction, so clamped at 0) with `latest_block` as reported, and
every provider in the sweep output whose `behind` exceeds
`max_blocks_behind` is unhealthy; providers that failed the probe
keep their stale `behind` (the original claim asserted the equation
for every provider). -/
theorem sweep_spec (ps : List ProviderState) (results : List ProbeResult) (maxB : Nat) :
    (∀ i p r bn, ps.get? i = some p → results.get? i = some r →
      (probe p r).2 = some bn →
      ((sweep ps results maxB).get? i).map ProviderState.behind =
        some (sweepGlobalMax ps results - bn) ∧
      ((sweep ps results maxB).get? i).map ProviderState.latest_block = some bn) ∧
    (∀ q ∈ sweep ps results maxB, maxB < q.behind → q.healthy = false) := by
  constructor
  · intro i p r bn hp hr hbn
    have hzip := get?_zip_of_get? ps results i p r hp hr
    have hprobed : ((ps.zip results).map (fun pr => probe pr.1 pr.2)).get? i =
        some (probe p r) := by
      rw [List.get?_map, hzip]
      rfl
    have hswe : (sweep ps results maxB).get? i =
        some (lagAdjust (sweepGlobalMax ps results) maxB (probe p r)) := by
      unfold sweep
      rw [List.get?_map, hprobed]
      rfl
    rw [hswe]
    have hblock := probe_success_block p r bn hbn
    simp only [lagAdjust, hbn, Option.map_some]
    by_cases hb : maxB < sweepGlobalMax ps results - bn
    · rw [if_pos hb]
      exact ⟨rfl, congrArg some hblock.1⟩
    · rw [if_neg hb]
      exact ⟨rfl, congrArg some hblock.1⟩
  · intro q hq hbe
    unfold sweep at hq
    obtain ⟨pr, hpr, rfl⟩ := List.mem_map.mp hq
    obtain ⟨ab, hab, rfl⟩ := List.mem_map.mp hpr
    cases h2 : (probe ab.1 ab.2).2 with
    | none =>
        simp only [lagAdjust, h2]
        exact probe_fail_healthy ab.1 ab.2 h2
    | some bn =>
        simp only [lagAdjust, h2] at hbe ⊢
        by_cases hb : maxB < sweepGlobalMax ps results - bn
        · rw [if_pos hb]
        · rw [if_neg hb] at hbe ⊢
          exact absurd hbe (by simpa using hb)

/-- Witness for C6: provider B succeeded with block 110, the global
maximum; its behind is 0 and its latest_block is 110. -/
theorem sweep_spec_witness :
    ((sweep psC6 rsC6 6).get? 1).map ProviderState.behind = some 0 ∧
    ((sweep psC6 rsC6 6).get? 1).map ProviderState.latest_block = some 110 := by
  have h := (sweep_spec psC6 rsC6 6).1 1 provB
    (.body (.obj [("result", .str "0x6e")]) 5) 110 rfl rfl rfl
  exact ⟨h.1.trans rfl, h.2⟩

/-- Counterexample to C8 as stated: `from_endpoint` creates the
provider with healthy = true, so a provider is healthy before any
sweep has probed it. -/
theorem from_endpoint_healthy_counterexample :
    (ProviderState.from_endpoint epD 0).healthy = true := rfl

/-- C8 (amended): providers are created healthy — so before its first
sweep a provider can be healthy without having been probed, against
the original claim; for every position of a completed sweep, a
healthy provider in the output succeeded the probe of that sweep; a
banned breaker means the clock is before the ban deadline. -/
theorem healthy_implies_probed :
    (∀ ep nowq, (ProviderState.from_endpoint ep nowq).healthy = true) ∧
    (∀ ps results maxB i q, (sweep ps results maxB).get? i = some q →
      q.healthy = true →
      ∃ p r bn, ps.get? i = some p ∧ results.get? i = some r ∧
        (probe p r).2 = some bn) ∧
    (∀ (cb : CircuitBreaker) (now : Nat), cb.is_banned now = true →
      now < cb.banned_until_epoch) := by
  refine ⟨fun ep nowq => rfl, ?_, fun cb now h => by simpa [CircuitBreaker.is_banned] using h⟩
  intro ps results maxB i q hq hhealthy
  unfold sweep at hq
  rw [List.get?_map] at hq
  cases hpr : ((ps.zip results).map (fun pr => probe pr.1 pr.2)).get? i with
  | none => rw [hpr] at hq; exact absurd hq (by simp)
  | some pr =>
      rw [hpr] at hq
      obtain rfl : lagAdjust (sweepGlobalMax ps results) maxB pr = q := by injection hq
      rw [List.get?_map] at hpr
      cases hab : (ps.zip results).get? i with
      | none => rw [hab] at hpr; exact absurd hpr (by simp)
      | some ab =>
          rw [hab] at hpr
          obtain rfl : probe ab.1 ab.2 = pr := by injection hpr
          have hg := get?_of_get?_zip ps results i ab hab
          refine ⟨ab.1, ab.2, ?_⟩
          cases h2 : (probe ab.1 ab.2).2 with
          | none =>
              exfalso
              have hfalse := probe_fail_healthy ab.1 ab.2 h2
              simp only [lagAdjust, h2] at hhealthy
              rw [hfalse] at hhealthy
              exact Bool.false_ne_true hhealthy
          | some bn => exact ⟨bn, hg.1, hg.2, rfl⟩

/-- Witness for C8: provider B is healthy in the sweep output and
indeed succeeded its probe; a breaker banned until 99 at time 50 is
before its deadline. -/
theorem healthy_implies_probed_witness :
    (∃ p r bn, psC6.get? 1 = some p ∧ rsC6.get? 1 = some r ∧ (probe p r).2 = some bn) ∧
    (50 : Nat) < 99 := by
  constructor
  · exact healthy_implies_probed.2.1 psC6 rsC6 6 1
      { provB with latest_block := 110, latency_ms := 5 } rfl rfl
  · exact healthy_implies_probed.2.2 { fail_streak := 1, banned_until_epoch := 99 } 50 rfl
